import Mathlib

/-!
Verification of the Dataset Discovery & Multi-Format Sample Loading subsystem
of `AutoML2015/data/data_io.py` against its natural-language specification.

The Python code is shallowly embedded:
* a string (path, dataset name, token, line of a file) is a `List Char`;
* a file's contents are its list of lines;
* the filesystem is a predicate `isfile` on paths, and each `glob` call's
  result list is passed in explicitly (the glob order is an input, so
  order-independence can be stated);
* `exit(1)` / an uncaught Python exception is `Except.error`;
* floating point values are modelled as exact rationals: every numeric
  literal exercised here ("3.0", "1.5", ...) is exactly representable.

Functions keep the source's names (`inventory_data`, `check_dataset`,
`data`, `data_sparse`, `data_binary_sparse`, `copy_results`, ...).
-/

namespace DataIO

/-- Paths, names and tokens are lists of characters. -/
abbrev Str := List Char

instance {ε α : Type} [DecidableEq ε] [DecidableEq α] : DecidableEq (Except ε α) := fun a b =>
  match a, b with
  | .ok x, .ok y => decidable_of_iff (x = y) (by constructor <;> intro h; rw [h]; injection h)
  | .error e, .error e2 => decidable_of_iff (e = e2) (by constructor <;> intro h; rw [h]; injection h)
  | .ok _, .error _ => isFalse (by intro h; injection h)
  | .error _, .ok _ => isFalse (by intro h; injection h)

/-- `filesep` (data_io.py line 34-37): the run is on a non-Windows OS, so '/'. -/
def filesep : Char := '/'

/-- Python `list.index`: position of the first occurrence, `none` for the
`ValueError` raised when the element is absent. -/
def indexOfChar (c : Char) : Str → Option Nat
  | [] => none
  | x :: xs => if x = c then some 0 else (indexOfChar c xs).map (· + 1)

/-- Python `s[::-1].index(c)`: distance of the last occurrence of `c` from the
end of `s`; `none` models the `ValueError` when `c` does not occur. -/
def revIndex (s : Str) (c : Char) : Option Nat :=
  indexOfChar c s.reverse

/-- Python slice-index normalisation for a list of length `n`: a negative
index counts from the end and clamps at 0, a non-negative one clamps at `n`. -/
def pyIndex (n : Nat) (i : Int) : Nat :=
  if i < 0 then (i + n).toNat else min i.toNat n

/-- Python `s[a:b]` with possibly negative bounds. -/
def pySlice (s : Str) (a b : Int) : Str :=
  (s.take (pyIndex s.length b)).drop (pyIndex s.length a)

/-- The name-decoding step of the inventory scanner (data_io.py lines 116 and
125): `name[-name[::-1].index(filesep):-name[::-1].index('_')-1]`.
`none` models the uncaught `ValueError` when the path has no separator or no
underscore. -/
def extractName (path : Str) : Option Str :=
  match revIndex path filesep, revIndex path '_' with
  | some i, some j => some (pySlice path (-(i : Int)) (-(j : Int) - 1))
  | _, _ => none

/-- The failure modes of the subsystem: the three fatal `exit(1)` calls of
`check_dataset` (each remembers which dataset it reported), an uncaught
Python `ValueError`, a scipy `IndexError`, a malformed sparse sample and a
ragged dense file. -/
inductive DataErr : Type where
  | noValidation (name : Str)
  | noTest (name : Str)
  | noTrainingLabels (name : Str)
  | valueError
  | indexError
  | malformedSample
  | raggedInput
deriving DecidableEq, Repr

/-- The filesystem as the subsystem observes it: `os.path.isfile`. -/
structure FS : Type where
  isfile : Str → Bool

/-- Python `os.path.join(a, b)` for exactly two components. -/
def osPathJoin (a b : Str) : Str :=
  if b.head? = some filesep then b
  else if a = [] then b
  else if a.getLast? = some filesep then a ++ b
  else a ++ filesep :: b

def validSuffix : Str := "_valid.data".toList
def testSuffix : Str := "_test.data".toList
def solutionSuffix : Str := "_train.solution".toList
def trainDataSuffix : Str := "_train.data".toList

/-- `check_dataset` (data_io.py lines 129-144): checks the `_valid.data`,
`_test.data` and `_train.solution` files in that order, `exit(1)` on the
first missing one, `True` when all three exist. -/
def check_dataset (fs : FS) (dirname name : Str) : Except DataErr Bool :=
  let valid_file := osPathJoin dirname (name ++ validSuffix)
  if fs.isfile valid_file = false then .error (.noValidation name)
  else
    let test_file := osPathJoin dirname (name ++ testSuffix)
    if fs.isfile test_file = false then .error (.noTest name)
    else
      let training_solution := osPathJoin dirname (name ++ solutionSuffix)
      if fs.isfile training_solution = false then .error (.noTrainingLabels name)
      else .ok true

/-- A sequential effectful map: apply `f` to each element in order, abort on
the first error.  This is the shape of every loop of the source that can
`exit(1)` or raise. -/
def seqMap {α β : Type} (f : α → Except DataErr β) : List α → Except DataErr (List β)
  | [] => .ok []
  | x :: xs =>
    match f x with
    | .error e => .error e
    | .ok y =>
      match seqMap f xs with
      | .error e => .error e
      | .ok ys => .ok (y :: ys)

/-- One iteration of the inventory loops (data_io.py lines 114-117 and
123-126): decode the name from the matched path, then validate the dataset
(in the directory `dirFor name`). -/
def inventoryStep (fs : FS) (dirFor : Str → Str) (path : Str) : Except DataErr Str :=
  match extractName path with
  | none => .error .valueError
  | some nm =>
    match check_dataset fs (dirFor nm) nm with
    | .error e => .error e
    | .ok _ => .ok nm

/-- `inventory_data_dir` (data_io.py lines 120-127).  `matches` is the result
of `glob(input_dir + '/*/*_train.data')`; each dataset is validated against
`os.path.join(input_dir, name)`. -/
def inventory_data_dir (fs : FS) (input_dir : Str) (ms : List Str) :
    Except DataErr (List Str) :=
  seqMap (inventoryStep fs (fun nm => osPathJoin input_dir nm)) ms

/-- `inventory_data_nodir` (data_io.py lines 111-118).  `matches` is the
result of `glob(os.path.join(input_dir, '*_train.data'))`; each dataset is
validated against `input_dir` itself. -/
def inventory_data_nodir (fs : FS) (input_dir : Str) (ms : List Str) :
    Except DataErr (List Str) :=
  seqMap (inventoryStep fs (fun _ => input_dir)) ms

/-- Python `list.sort()` on strings: ascending lexicographic order by code
point, which is exactly `≤` on `List Char`. -/
def sortNames (l : List Str) : List Str :=
  List.insertionSort (· ≤ ·) l

/-- `inventory_data` (data_io.py lines 96-109): try the nested layout, fall
back on the flat layout, warn on an empty inventory, sort and return. -/
def inventory_data (fs : FS) (input_dir : Str) (dirMatches nodirMatches : List Str) :
    Except DataErr (List Str) :=
  match inventory_data_dir fs input_dir dirMatches with
  | .error e => .error e
  | .ok tn =>
    if tn.length = 0 then
      match inventory_data_nodir fs input_dir nodirMatches with
      | .error e => .error e
      | .ok tn2 =>
        -- on a second zero count the source prints a warning and resets the
        -- (already empty) list before sorting
        .ok (sortNames (if tn2.length = 0 then [] else tn2))
    else .ok (sortNames tn)

/-- `copy_results` (data_io.py lines 178-196).  `testGlob b` and `validGlob b`
are the results of `glob(result_dir + "/" + b + "*_test*.predict")` and
`glob(result_dir + "/" + b + "*_valid*.predict")`.  The first component is
the list of files copied to `output_dir`, in copy order; the second is the
function's return value (`1` or `0`). -/
def copy_results (testGlob validGlob : Str → List Str) : List Str → (List Str × Nat)
  | [] => ([], 1)
  | basename :: rest =>
    let test_files := testGlob basename
    if test_files.length = 0 then ([], 0)
    else
      let valid_files := validGlob basename
      if valid_files.length = 0 then (test_files, 0)
      else
        let res := copy_results testGlob validGlob rest
        (test_files ++ valid_files ++ res.1, res.2)

/-- Whitespace characters for tokenizing a line. -/
def isSpaceChar (c : Char) : Bool :=
  c == ' ' || c == '\t' || c == '\n' || c == '\r'

/-- Split a line into maximal runs of non-whitespace characters. -/
def splitWsAux : Str → Str → List Str
  | acc, [] => if acc.isEmpty then [] else [acc.reverse]
  | acc, c :: cs =>
    if isSpaceChar c then
      if acc.isEmpty then splitWsAux [] cs else acc.reverse :: splitWsAux [] cs
    else splitWsAux (c :: acc) cs

/-- The whitespace tokens of one line of a file. -/
def tokenize (line : Str) : List Str :=
  splitWsAux [] line

/-- Modelled from the spec: `data_converter.file_to_array`, imported by
data_io.py (line 27) but not under src/.  Per spec §4.4 every loader
whitespace-tokenizes the file's lines and produces one row per non-empty
line of the source file. -/
def file_to_array (lines : List Str) : List (List Str) :=
  (lines.map tokenize).filter (fun r => !r.isEmpty)

/-- The numeric value of a decimal digit. -/
def digitVal (c : Char) : Option Nat :=
  if '0' ≤ c ∧ c ≤ '9' then some (c.toNat - '0'.toNat) else none

def parseDigitsAux (acc : Nat) : Str → Option Nat
  | [] => some acc
  | c :: cs =>
    match digitVal c with
    | some d => parseDigitsAux (acc * 10 + d) cs
    | none => none

/-- A non-empty all-digit string as a natural number. -/
def parseNatDigits : Str → Option Nat
  | [] => none
  | s => parseDigitsAux 0 s

/-- Python `int(s)` on the integer-literal subset used by the loaders:
optional sign, then decimal digits; anything else raises `ValueError`. -/
def parseInt : Str → Option Int
  | '-' :: rest => (parseNatDigits rest).map (fun n => -(n : Int))
  | '+' :: rest => (parseNatDigits rest).map (fun n => (n : Int))
  | s => (parseNatDigits s).map (fun n => (n : Int))

/-- Python `s.split(c)` for a single-character separator (keeps empty
segments). -/
def splitOnChar (sep : Char) : Str → List Str
  | [] => [[]]
  | x :: xs =>
    if x = sep then [] :: splitOnChar sep xs
    else
      match splitOnChar sep xs with
      | [] => [[x]]
      | seg :: rest => (x :: seg) :: rest

/-- Python `float(s)`, unsigned part, on the decimal subset the data files
use (`digits`, `digits.digits`, `digits.`, `.digits`): the value is an exact
rational. -/
def parseUnsignedQ (s : Str) : Option ℚ :=
  match splitOnChar '.' s with
  | [intPart] => (parseNatDigits intPart).map (fun n => mkRat n 1)
  | [intPart, fracPart] =>
    if intPart.isEmpty && fracPart.isEmpty then none
    else
      match (if intPart.isEmpty then some 0 else parseNatDigits intPart),
            (if fracPart.isEmpty then some 0 else parseNatDigits fracPart) with
      | some ip, some fp => some (mkRat (ip * 10 ^ fracPart.length + fp) (10 ^ fracPart.length))
      | _, _ => none
  | _ => none

/-- Python `float(s)` (decimal subset, exact rational value). -/
def parseFloatQ : Str → Option ℚ
  | '-' :: rest => (parseUnsignedQ rest).map Neg.neg
  | '+' :: rest => parseUnsignedQ rest
  | s => parseUnsignedQ s

/-- The sparse result matrix (scipy `dok_matrix(...).tocsr()`): the recorded
dimensions together with the sequence of assignments made to the dok matrix;
a later assignment to the same cell overwrites an earlier one. -/
structure CsrMat : Type where
  rows : Nat
  cols : Nat
  entries : List (Nat × Nat × ℚ)
deriving DecidableEq, Repr

/-- The value of cell `(i, j)`: the last assignment to it, `0.0` if none. -/
def CsrMat.get (m : CsrMat) (i j : Nat) : ℚ :=
  match m.entries.reverse.find? (fun e => e.1 == i && e.2.1 == j) with
  | some e => e.2.2
  | none => 0

/-- scipy dok_matrix column indexing with `F` columns: a negative index wraps
once (Python style), and an index still out of `[0, F)` raises `IndexError`. -/
def dokIndex (F : Nat) (c : Int) : Except DataErr Nat :=
  let c2 := if c < 0 then c + (F : Int) else c
  if 0 ≤ c2 ∧ c2 < (F : Int) then .ok c2.toNat else .error .indexError

/-- One token of the binary-indicator loop (data_io.py lines 171-172):
`dok_sparse[row, int(feature)-1] = 1`. -/
def binTokE (F row : Nat) (t : Str) : Except DataErr (Nat × Nat × ℚ) :=
  match parseInt t with
  | none => .error .valueError
  | some k =>
    match dokIndex F (k - 1) with
    | .error e => .error e
    | .ok c => .ok (row, c, (1 : ℚ))

/-- The row-indexed double loop shared by the sparse builders: `g row r` is
the list of matrix assignments row `r` contributes. -/
def idxRowsLoop {α : Type} (g : Nat → α → Except DataErr (List (Nat × Nat × ℚ))) :
    Nat → List α → Except DataErr (List (Nat × Nat × ℚ))
  | _, [] => .ok []
  | r0, r :: rs =>
    match g r0 r with
    | .error e => .error e
    | .ok es =>
      match idxRowsLoop g (r0 + 1) rs with
      | .error e => .error e
      | .ok es2 => .ok (es ++ es2)

/-- `data_binary_sparse` (data_io.py lines 160-174): read the file into token
rows, then assign `1` at `[row, int(feature)-1]` for every token. -/
def data_binary_sparse (lines : List Str) (feat_type : List Str) : Except DataErr CsrMat :=
  let dataArr := file_to_array lines
  match idxRowsLoop (fun row r => seqMap (binTokE feat_type.length row) r) 0 dataArr with
  | .error e => .error e
  | .ok es => .ok ⟨dataArr.length, feat_type.length, es⟩

/-- One token of the dense loader under `np.array(-, dtype=float)`: a
non-numeric token raises `ValueError`. -/
def parseFloatE (t : Str) : Except DataErr ℚ :=
  match parseFloatQ t with
  | none => .error .valueError
  | some q => .ok q

/-- All rows have the length of the first row. -/
def rectangular {β : Type} : List (List β) → Bool
  | [] => true
  | r :: rs => rs.all (fun x => x.length == r.length)

/-- `data` (data_io.py lines 146-149): `np.array(file_to_array(filename),
dtype=float)` — every token must parse as a float and the rows must be
rectangular, otherwise numpy raises `ValueError` (modelled as
`raggedInput`). -/
def data (lines : List Str) : Except DataErr (List (List ℚ)) :=
  match seqMap (seqMap parseFloatE) (file_to_array lines) with
  | .error e => .error e
  | .ok m => if rectangular m then .ok m else .error .raggedInput

/-- A sparse `index:value` token as a (1-based index, value) pair. -/
def parsePair (t : Str) : Option (Int × ℚ) :=
  match splitOnChar ':' t with
  | [a, b] =>
    match parseInt a, parseFloatQ b with
    | some i, some v => some (i, v)
    | _, _ => none
  | _ => none

def parsePairE (t : Str) : Except DataErr (Int × ℚ) :=
  match parsePair t with
  | none => .error .malformedSample
  | some p => .ok p

/-- Modelled from the spec: `data_converter.sparse_file_to_sparse_list`,
called by `data_sparse` (data_io.py line 155) but not under src/.  Per spec
§4.4 each line holds zero or more `index:value` tokens, each parsed into a
(1-based index, float value) pair; a malformed token fails the load. -/
def sparse_file_to_sparse_list (lines : List Str) :
    Except DataErr (List (List (Int × ℚ))) :=
  seqMap (seqMap parsePairE) (file_to_array lines)

/-- One pair of the sparse insertion loop: range-check the 1-based index and
insert the value at the 0-based column. -/
def sparsePairE (F row : Nat) (p : Int × ℚ) : Except DataErr (Nat × Nat × ℚ) :=
  if 1 ≤ p.1 ∧ p.1 ≤ (F : Int) then .ok (row, (p.1 - 1).toNat, p.2)
  else .error .malformedSample

/-- Modelled from the spec: `data_converter.sparse_list_to_csr_sparse`,
called by `data_sparse` (data_io.py line 156) but not under src/.  Per spec
§3/§4.4 each (1-based index, value) pair is inserted at column index-1 of a
`rows × F` sparse matrix, and an index outside `[1, F]` is a malformed-input
error. -/
def sparse_list_to_csr_sparse (sl : List (List (Int × ℚ))) (F : Nat) :
    Except DataErr CsrMat :=
  match idxRowsLoop (fun row r => seqMap (sparsePairE F row) r) 0 sl with
  | .error e => .error e
  | .ok es => .ok ⟨sl.length, F, es⟩

/-- `data_sparse` (data_io.py lines 151-157). -/
def data_sparse (lines : List Str) (feat_type : List Str) : Except DataErr CsrMat :=
  match sparse_file_to_sparse_list lines with
  | .error e => .error e
  | .ok sl => sparse_list_to_csr_sparse sl feat_type.length

/-- Does row `i` of the token array contain a token whose `int(...)` value is
`k`? (used to state what the binary loader stores). -/
def rowHasIdx (arr : List (List Str)) (i : Nat) (k : Int) : Bool :=
  match arr.get? i with
  | some row => row.any (fun t => parseInt t == some k)
  | none => false

/-- Does row `i` of the token array contain an `index:value` token with
1-based index `k`? (used to state what the sparse loader stores). -/
def rowHasPair (arr : List (List Str)) (i : Nat) (k : Int) : Bool :=
  match arr.get? i with
  | some row => row.any (fun t => ((parsePair t).map Prod.fst) == some k)
  | none => false

/-- A binary-indicator token is well-formed for `F` features: it parses as an
integer inside `[1, F]`. -/
def binTokOk (F : Nat) (t : Str) : Bool :=
  match parseInt t with
  | some k => decide (1 ≤ k ∧ k ≤ (F : Int))
  | none => false

/-- An `index:value` token is well-formed for `F` features: it parses as a
pair whose 1-based index lies inside `[1, F]`. -/
def pairTokOk (F : Nat) (t : Str) : Bool :=
  match parsePair t with
  | some p => decide (1 ≤ p.1 ∧ p.1 ≤ (F : Int))
  | none => false

/-- The value inside `.ok`, with a fallback for `.error`. -/
def exOk {β : Type} (d : β) : Except DataErr β → β
  | .ok y => y
  | .error _ => d

/-- Filesystem fixture: one complete dataset `x` under `in/x`. -/
def fsDup : FS :=
  ⟨fun p => [("in/x/x_valid.data").toList, ("in/x/x_test.data").toList,
    ("in/x/x_train.solution").toList].contains p⟩

/-- Filesystem fixture: one complete dataset `y` under `d/y`. -/
def fsOne : FS :=
  ⟨fun p => [("d/y/y_valid.data").toList, ("d/y/y_test.data").toList,
    ("d/y/y_train.solution").toList].contains p⟩

/-- Filesystem fixture: complete datasets `x` under `in/x` and `y` under
`in/y`. -/
def fsTwo : FS :=
  ⟨fun p => [("in/x/x_valid.data").toList, ("in/x/x_test.data").toList,
    ("in/x/x_train.solution").toList, ("in/y/y_valid.data").toList,
    ("in/y/y_test.data").toList, ("in/y/y_train.solution").toList].contains p⟩

/-- Result-glob fixture: only dataset `a` has a test and a valid prediction
file. -/
def tgOne : Str → List Str :=
  fun b => if b = ("a").toList then [("r/a_test.predict").toList] else []

/-- See `tgOne`. -/
def vgOne : Str → List Str :=
  fun b => if b = ("a").toList then [("r/a_valid.predict").toList] else []

/-- Feature-type vector fixture of length 4 (only the length is used). -/
def ftFour : List Str := List.replicate 4 []

/-- Feature-type vector fixture of length 5. -/
def ftFive : List Str := List.replicate 5 []

section Lemmas

theorem seqMap_ok_of_forall {α β : Type} (f : α → Except DataErr β) (g : α → β) :
    ∀ l : List α, (∀ x ∈ l, f x = .ok (g x)) → seqMap f l = .ok (l.map g)
  | [], _ => rfl
  | x :: xs, h => by
    have hx := h x (by simp)
    have hxs := seqMap_ok_of_forall f g xs (fun y hy => h y (by simp [hy]))
    simp [seqMap, hx, hxs]

theorem seqMap_ok_forall {α β : Type} (f : α → Except DataErr β) :
    ∀ (l : List α) (ys : List β), seqMap f l = .ok ys → ∀ x ∈ l, ∃ y, f x = .ok y := by
  intro l
  induction l with
  | nil => intro ys _ x hx; cases hx
  | cons a as ih =>
    intro ys h x hx
    rw [seqMap] at h
    cases hfa : f a with
    | error e => rw [hfa] at h; cases h
    | ok y =>
      rw [hfa] at h
      cases hrest : seqMap f as with
      | error e => rw [hrest] at h; cases h
      | ok ys2 =>
        cases hx with
        | head => exact ⟨y, hfa⟩
        | tail _ hmem => exact ih ys2 hrest x hmem

theorem seqMap_ok_map {α β : Type} (f : α → Except DataErr β) (d : β) :
    ∀ (l : List α) (ys : List β), seqMap f l = .ok ys → ys = l.map (fun x => exOk d (f x)) := by
  intro l
  induction l with
  | nil => intro ys h; cases h; rfl
  | cons a as ih =>
    intro ys h
    rw [seqMap] at h
    cases hfa : f a with
    | error e => rw [hfa] at h; cases h
    | ok y =>
      rw [hfa] at h
      cases hrest : seqMap f as with
      | error e => rw [hrest] at h; cases h
      | ok ys2 =>
        rw [hrest] at h
        cases h
        simp [exOk, hfa, ih ys2 hrest]

theorem seqMap_err {α β : Type} (f : α → Except DataErr β) (x : α)
    (hf : ∀ y, f x ≠ .ok y) :
    ∀ l : List α, x ∈ l → ∀ ys, seqMap f l ≠ .ok ys := by
  intro l
  induction l with
  | nil => intro hx; cases hx
  | cons a as ih =>
    intro hx ys h
    rw [seqMap] at h
    cases hfa : f a with
    | error e => rw [hfa] at h; cases h
    | ok y =>
      rw [hfa] at h
      cases hrest : seqMap f as with
      | error e => rw [hrest] at h; cases h
      | ok ys2 =>
        cases hx with
        | head => exact hf y hfa
        | tail _ hmem => exact ih hmem ys2 hrest

theorem seqMap_ok_mem {α β : Type} (f : α → Except DataErr β) (l : List α) (ys : List β)
    (h : seqMap f l = .ok ys) (y : β) : y ∈ ys ↔ ∃ x ∈ l, f x = .ok y := by
  constructor
  · intro hy
    rw [seqMap_ok_map f y l ys h] at hy
    obtain ⟨x, hx, hval⟩ := List.mem_map.mp hy
    obtain ⟨y2, hy2⟩ := seqMap_ok_forall f l ys h x hx
    refine ⟨x, hx, ?_⟩
    rw [hy2]
    rw [hy2] at hval
    simp [exOk] at hval
    rw [hval]
  · rintro ⟨x, hx, hfx⟩
    rw [seqMap_ok_map f y l ys h]
    exact List.mem_map.mpr ⟨x, hx, by simp [hfx, exOk]⟩

theorem idxRowsLoop_ok_of_forall {α : Type}
    (g : Nat → α → Except DataErr (List (Nat × Nat × ℚ))) :
    ∀ (rows : List α), (∀ i, ∀ r ∈ rows, ∃ es, g i r = .ok es) →
      ∀ (r0 : Nat), ∃ E, idxRowsLoop g r0 rows = .ok E := by
  intro rows
  induction rows with
  | nil => intro _ r0; exact ⟨[], rfl⟩
  | cons r rs ih =>
    intro h r0
    obtain ⟨es, hes⟩ := h r0 r (by simp)
    obtain ⟨E2, hE2⟩ := ih (fun i r2 hr2 => h i r2 (by simp [hr2])) (r0 + 1)
    exact ⟨es ++ E2, by rw [idxRowsLoop, hes, hE2]⟩

theorem idxRowsLoop_mem {α : Type}
    (g : Nat → α → Except DataErr (List (Nat × Nat × ℚ))) :
    ∀ (rows : List α) (r0 : Nat) (E : List (Nat × Nat × ℚ)),
      idxRowsLoop g r0 rows = .ok E → ∀ e,
        (e ∈ E ↔ ∃ ridx r es, rows.get? ridx = some r ∧ g (r0 + ridx) r = .ok es ∧ e ∈ es) := by
  intro rows
  induction rows with
  | nil =>
    intro r0 E h e
    cases h
    simp
  | cons r rs ih =>
    intro r0 E h e
    rw [idxRowsLoop] at h
    cases hg : g r0 r with
    | error er => rw [hg] at h; cases h
    | ok es =>
      rw [hg] at h
      cases hrest : idxRowsLoop g (r0 + 1) rs with
      | error er => rw [hrest] at h; cases h
      | ok E2 =>
        rw [hrest] at h
        cases h
        rw [List.mem_append, ih (r0 + 1) E2 hrest e]
        constructor
        · rintro (he | ⟨ridx, r2, es2, hget, hok, hmem⟩)
          · exact ⟨0, r, es, by simpa using ⟨hg, he⟩⟩
          · exact ⟨ridx + 1, r2, es2, by simpa using hget,
              by rw [show r0 + (ridx + 1) = r0 + 1 + ridx by omega]; exact hok, hmem⟩
        · rintro ⟨ridx, r2, es2, hget, hok, hmem⟩
          cases ridx with
          | zero =>
            left
            simp at hget
            cases hget
            simp at hok
            rw [hg] at hok
            cases hok
            exact hmem
          | succ n =>
            right
            exact ⟨n, r2, es2, by simpa using hget,
              by rw [show r0 + 1 + n = r0 + (n + 1) by omega]; exact hok, hmem⟩

theorem idxRowsLoop_err {α : Type}
    (g : Nat → α → Except DataErr (List (Nat × Nat × ℚ))) (r : α)
    (hg : ∀ i es, g i r ≠ .ok es) :
    ∀ (rows : List α), r ∈ rows → ∀ (r0 : Nat) E, idxRowsLoop g r0 rows ≠ .ok E := by
  intro rows
  induction rows with
  | nil => intro hx; cases hx
  | cons a as ih =>
    intro hx r0 E h
    rw [idxRowsLoop] at h
    cases hga : g r0 a with
    | error er => rw [hga] at h; cases h
    | ok es =>
      rw [hga] at h
      cases hrest : idxRowsLoop g (r0 + 1) as with
      | error er => rw [hrest] at h; cases h
      | ok E2 =>
        cases hx with
        | head => exact hg r0 es hga
        | tail _ hmem => exact ih hmem (r0 + 1) E2 hrest

theorem isOk_eq_false_iff {β : Type} (x : Except DataErr β) :
    x.isOk = false ↔ ∀ y, x ≠ .ok y := by
  cases x <;> simp [Except.isOk, Except.toBool]

theorem get_eq_zero (m : CsrMat) (i j : Nat)
    (h : ∀ e ∈ m.entries, ¬(e.1 = i ∧ e.2.1 = j)) : m.get i j = 0 := by
  rw [CsrMat.get]
  have hnone : m.entries.reverse.find? (fun e => e.1 == i && e.2.1 == j) = none := by
    rw [List.find?_eq_none]
    intro e he
    have := h e (List.mem_reverse.mp he)
    simpa using this
  rw [hnone]

theorem get_eq_of (m : CsrMat) (i j : Nat) (v : ℚ)
    (hex : ∃ e ∈ m.entries, e.1 = i ∧ e.2.1 = j)
    (hall : ∀ e ∈ m.entries, e.1 = i → e.2.1 = j → e.2.2 = v) : m.get i j = v := by
  rw [CsrMat.get]
  cases hf : m.entries.reverse.find? (fun e => e.1 == i && e.2.1 == j) with
  | none =>
    exfalso
    rw [List.find?_eq_none] at hf
    obtain ⟨e, he, h1, h2⟩ := hex
    exact hf e (List.mem_reverse.mpr he) (by simp [h1, h2])
  | some e =>
    have hmem : e ∈ m.entries := List.mem_reverse.mp (List.mem_of_find?_eq_some hf)
    have hp := List.find?_some hf
    simp at hp
    exact hall e hmem hp.1 hp.2

theorem sortNames_perm (l : List Str) : (sortNames l).Perm l :=
  List.perm_insertionSort _ l

theorem sortNames_sorted (l : List Str) : (sortNames l).Sorted (· ≤ ·) :=
  List.sorted_insertionSort _ l

theorem sortNames_eq_of_perm (l1 l2 : List Str) (h : l1.Perm l2) :
    sortNames l1 = sortNames l2 :=
  @List.eq_of_perm_of_sorted (List Char) (· ≤ ·) ⟨fun _ _ => le_antisymm⟩ _ _
    (((List.perm_insertionSort _ l1).trans h).trans (List.perm_insertionSort _ l2).symm)
    (List.sorted_insertionSort _ l1)
    (List.sorted_insertionSort _ l2)

theorem indexOfChar_append_left (c : Char) :
    ∀ (l1 l2 : Str) (k : Nat), indexOfChar c l1 = some k →
      indexOfChar c (l1 ++ l2) = some k := by
  intro l1
  induction l1 with
  | nil => intro l2 k h; cases h
  | cons x xs ih =>
    intro l2 k h
    rw [indexOfChar] at h
    by_cases hx : x = c
    · rw [if_pos hx] at h
      cases h
      simp [indexOfChar, hx]
    · rw [if_neg hx] at h
      cases hk : indexOfChar c xs with
      | none => rw [hk] at h; cases h
      | some k2 =>
        rw [hk] at h
        simp at h
        simp [indexOfChar, hx, ih l2 k2 hk, h]

theorem indexOfChar_append_right (c : Char) :
    ∀ (l1 l2 : Str), c ∉ l1 →
      indexOfChar c (l1 ++ l2) = (indexOfChar c l2).map (· + l1.length) := by
  intro l1
  induction l1 with
  | nil =>
    intro l2 _
    rw [List.nil_append]
    cases hk : indexOfChar c l2 <;> simp [hk]
  | cons x xs ih =>
    intro l2 h
    have hx : ¬x = c := fun he => h (by simp [he])
    have hxs : c ∉ xs := fun hm => h (by simp [hm])
    rw [List.cons_append, indexOfChar, if_neg hx, ih l2 hxs]
    cases indexOfChar c l2 <;> simp <;> omega

theorem rectangular_of_const {β : Type} (M : List (List β)) (C : Nat)
    (h : ∀ r ∈ M, r.length = C) : rectangular M = true := by
  cases M with
  | nil => rfl
  | cons r rs =>
    rw [rectangular, List.all_eq_true]
    intro x hx
    have hxl := h x (by simp [hx])
    have hr := h r (by simp)
    simp [hxl, hr]

theorem rectangular_all {β : Type} (M : List (List β)) (h : rectangular M = true) :
    ∀ a ∈ M, ∀ b ∈ M, a.length = b.length := by
  cases M with
  | nil => intro a ha; cases ha
  | cons r rs =>
    rw [rectangular, List.all_eq_true] at h
    intro a ha b hb
    have hval : ∀ x ∈ r :: rs, x.length = r.length := by
      intro x hx
      cases hx with
      | head => rfl
      | tail _ hx2 => simpa using h x hx2
    rw [hval a ha, hval b hb]

end Lemmas

/-- C8: for a path `<dir>/<name>_train.data` whose `<name>` is non-empty,
free of path separators but possibly containing underscores, the reverse
scan of the inventory name decoder extracts exactly `<name>`. -/
theorem extractName_decodes (dir nm : Str) (hnm : nm ≠ []) (hsep : filesep ∉ nm) :
    extractName (dir ++ filesep :: (nm ++ trainDataSuffix)) = some nm := by
  have hrev : (dir ++ filesep :: (nm ++ trainDataSuffix)).reverse
      = trainDataSuffix.reverse ++ (nm.reverse ++ filesep :: dir.reverse) := by
    simp
  have hund : indexOfChar '_' (dir ++ filesep :: (nm ++ trainDataSuffix)).reverse
      = some 10 := by
    rw [hrev]
    exact indexOfChar_append_left '_' trainDataSuffix.reverse _ 10 (by decide)
  have hsep2 : indexOfChar filesep (dir ++ filesep :: (nm ++ trainDataSuffix)).reverse
      = some (11 + nm.length) := by
    have hrev2 : (dir ++ filesep :: (nm ++ trainDataSuffix)).reverse
        = (trainDataSuffix.reverse ++ nm.reverse) ++ (filesep :: dir.reverse) := by
      rw [hrev]; simp
    have hnot : filesep ∉ trainDataSuffix.reverse ++ nm.reverse := by
      intro hmem
      rcases List.mem_append.mp hmem with hmem1 | hmem2
      · exact absurd hmem1 (by decide)
      · exact hsep (List.mem_reverse.mp hmem2)
    rw [hrev2, indexOfChar_append_right filesep _ _ hnot]
    have hhead : indexOfChar filesep (filesep :: dir.reverse) = some 0 := by
      rw [indexOfChar, if_pos rfl]
    rw [hhead]
    simp [trainDataSuffix]
    omega
  rw [extractName, revIndex, revIndex, hsep2, hund]
  congr 1
  have hlen : (dir ++ filesep :: (nm ++ trainDataSuffix)).length
      = dir.length + 1 + nm.length + 11 := by
    simp [trainDataSuffix]
    omega
  simp only [pySlice]
  rw [hlen]
  have ha : pyIndex (dir.length + 1 + nm.length + 11) (-((11 + nm.length : Nat) : Int))
      = dir.length + 1 := by
    rw [pyIndex, if_pos (by omega)]
    omega
  have hb : pyIndex (dir.length + 1 + nm.length + 11) (-((10 : Nat) : Int) - 1)
      = dir.length + 1 + nm.length := by
    rw [pyIndex, if_pos (by omega)]
    omega
  rw [ha, hb]
  have hs : dir ++ filesep :: (nm ++ trainDataSuffix)
      = ((dir ++ [filesep]) ++ nm) ++ trainDataSuffix := by
    simp
  rw [hs, List.take_left' (by simp; omega), List.drop_left' (by simp)]

/-- Witness for C8 at the spec's example: `d/a_b_train.data` decodes to
`a_b`. -/
theorem extractName_decodes_witness :
    extractName (['d'] ++ filesep :: (("a_b").toList ++ trainDataSuffix))
      = some (("a_b").toList) :=
  extractName_decodes ['d'] (("a_b").toList) (by decide) (by decide)

/-- C1 counterexample: two nested matches under different subdirectories
decode to the same dataset name `x`, and `inventory_data` returns it twice —
the inventory is sorted but not deduplicated. -/
theorem inventory_data_has_duplicates :
    inventory_data fsDup (("in").toList)
      [("in/a/x_train.data").toList, ("in/b/x_train.data").toList] []
      = .ok [("x").toList, ("x").toList]
    ∧ ¬ ([("x").toList, ("x").toList] : List Str).Nodup := by
  exact ⟨by decide, by decide⟩

/-- C1 (amended): on a successful nested-layout scan the returned list is
the decoded name list sorted lexicographically ascending — a permutation of
it, so duplicate decoded names are kept, not removed. -/
theorem inventory_data_sorts_without_dedup (fs : FS) (input_dir : Str)
    (dirMatches nodirMatches : List Str) (l : List Str)
    (h : inventory_data_dir fs input_dir dirMatches = .ok l) (hne : l ≠ []) :
    inventory_data fs input_dir dirMatches nodirMatches = .ok (sortNames l)
    ∧ (sortNames l).Perm l ∧ (sortNames l).Sorted (· ≤ ·) := by
  refine ⟨?_, sortNames_perm l, sortNames_sorted l⟩
  simp only [inventory_data, h]
  have hlen : ¬ l.length = 0 := by
    cases l with
    | nil => exact absurd rfl hne
    | cons a as => simp
  rw [if_neg hlen]

/-- Witness for the amended C1: the duplicate-name fixture. -/
theorem inventory_data_sorts_without_dedup_witness :
    inventory_data fsDup (("in").toList)
      [("in/a/x_train.data").toList, ("in/b/x_train.data").toList] []
      = .ok (sortNames [("x").toList, ("x").toList])
    ∧ (sortNames [("x").toList, ("x").toList]).Perm [("x").toList, ("x").toList]
    ∧ (sortNames [("x").toList, ("x").toList]).Sorted (· ≤ ·) :=
  inventory_data_sorts_without_dedup fsDup _ _ _ _ (by decide) (by decide)

theorem check_dataset_ok_true (fs : FS) (d n : Str) (b : Bool)
    (h : check_dataset fs d n = .ok b) : b = true := by
  cases hv : fs.isfile (osPathJoin d (n ++ validSuffix)) <;>
    cases ht : fs.isfile (osPathJoin d (n ++ testSuffix)) <;>
      cases hs : fs.isfile (osPathJoin d (n ++ solutionSuffix)) <;>
        simp_all [check_dataset]

/-- C3: `check_dataset` checks the `_valid.data`, `_test.data` and
`_train.solution` files in that order — the error identifies the first
missing split, it returns `True` exactly when all three exist, and a failed
check makes the whole inventory loop abort: a successful loop run means
every matched dataset decoded and passed all three checks. -/
theorem check_dataset_spec (fs : FS) (dirname name : Str) :
    ((check_dataset fs dirname name = .ok true) ↔
      (fs.isfile (osPathJoin dirname (name ++ validSuffix)) = true
        ∧ fs.isfile (osPathJoin dirname (name ++ testSuffix)) = true
        ∧ fs.isfile (osPathJoin dirname (name ++ solutionSuffix)) = true))
    ∧ ((check_dataset fs dirname name = .error (.noValidation name)) ↔
      fs.isfile (osPathJoin dirname (name ++ validSuffix)) = false)
    ∧ ((check_dataset fs dirname name = .error (.noTest name)) ↔
      (fs.isfile (osPathJoin dirname (name ++ validSuffix)) = true
        ∧ fs.isfile (osPathJoin dirname (name ++ testSuffix)) = false))
    ∧ ((check_dataset fs dirname name = .error (.noTrainingLabels name)) ↔
      (fs.isfile (osPathJoin dirname (name ++ validSuffix)) = true
        ∧ fs.isfile (osPathJoin dirname (name ++ testSuffix)) = true
        ∧ fs.isfile (osPathJoin dirname (name ++ solutionSuffix)) = false))
    ∧ (∀ (dirFor : Str → Str) (ms r : List Str),
        seqMap (inventoryStep fs dirFor) ms = .ok r →
        ∀ m ∈ ms, ∃ nm, extractName m = some nm
          ∧ check_dataset fs (dirFor nm) nm = .ok true) := by
  refine ⟨?_, ?_, ?_, ?_, ?_⟩
  · cases hv : fs.isfile (osPathJoin dirname (name ++ validSuffix)) <;>
      cases ht : fs.isfile (osPathJoin dirname (name ++ testSuffix)) <;>
        cases hs : fs.isfile (osPathJoin dirname (name ++ solutionSuffix)) <;>
          simp [check_dataset, hv, ht, hs]
  · cases hv : fs.isfile (osPathJoin dirname (name ++ validSuffix)) <;>
      cases ht : fs.isfile (osPathJoin dirname (name ++ testSuffix)) <;>
        cases hs : fs.isfile (osPathJoin dirname (name ++ solutionSuffix)) <;>
          simp [check_dataset, hv, ht, hs]
  · cases hv : fs.isfile (osPathJoin dirname (name ++ validSuffix)) <;>
      cases ht : fs.isfile (osPathJoin dirname (name ++ testSuffix)) <;>
        cases hs : fs.isfile (osPathJoin dirname (name ++ solutionSuffix)) <;>
          simp [check_dataset, hv, ht, hs]
  · cases hv : fs.isfile (osPathJoin dirname (name ++ validSuffix)) <;>
      cases ht : fs.isfile (osPathJoin dirname (name ++ testSuffix)) <;>
        cases hs : fs.isfile (osPathJoin dirname (name ++ solutionSuffix)) <;>
          simp [check_dataset, hv, ht, hs]
  · intro dirFor ms r hr m hm
    obtain ⟨y, hy⟩ := seqMap_ok_forall _ ms r hr m hm
    rw [inventoryStep] at hy
    cases hex : extractName m with
    | none => rw [hex] at hy; cases hy
    | some nm =>
      simp only [hex] at hy
      cases hc : check_dataset fs (dirFor nm) nm with
      | error e => rw [hc] at hy; cases hy
      | ok b =>
        have hb := check_dataset_ok_true fs (dirFor nm) nm b hc
        rw [hb] at hc
        exact ⟨nm, rfl, hc⟩

/-- Witness for C3: a concrete complete dataset passes `check_dataset`. -/
theorem check_dataset_spec_witness :
    check_dataset fsOne (("d/y").toList) (("y").toList) = .ok true :=
  (check_dataset_spec fsOne (("d/y").toList) (("y").toList)).1.mpr
    ⟨by decide, by decide, by decide⟩

/-- C9: `inventory_data` returns the same list whatever order the two globs
enumerate their matches in (when both runs succeed), and re-running it on
the unchanged inputs returns the identical list. -/
theorem inventory_data_order_independent (fs : FS) (input_dir : Str)
    (d1 d2 n1 n2 l1 l2 : List Str)
    (hd : d1.Perm d2) (hn : n1.Perm n2)
    (h1 : inventory_data fs input_dir d1 n1 = .ok l1)
    (h2 : inventory_data fs input_dir d2 n2 = .ok l2) :
    l1 = l2 ∧ inventory_data fs input_dir d1 n1 = inventory_data fs input_dir d1 n1 := by
  refine ⟨?_, rfl⟩
  cases hdir1 : inventory_data_dir fs input_dir d1 with
  | error e => simp [inventory_data, hdir1] at h1
  | ok r1 =>
    cases hdir2 : inventory_data_dir fs input_dir d2 with
    | error e => simp [inventory_data, hdir2] at h2
    | ok r2 =>
      have hr1 := seqMap_ok_map (inventoryStep fs (fun nm => osPathJoin input_dir nm)) [] d1 r1 hdir1
      have hr2 := seqMap_ok_map (inventoryStep fs (fun nm => osPathJoin input_dir nm)) [] d2 r2 hdir2
      have hperm : r1.Perm r2 := by
        rw [hr1, hr2]
        exact hd.map _
      simp only [inventory_data, hdir1] at h1
      simp only [inventory_data, hdir2] at h2
      by_cases hz : r1.length = 0
      · have hz2 : r2.length = 0 := by rw [← hperm.length_eq]; exact hz
        rw [if_pos hz] at h1
        rw [if_pos hz2] at h2
        cases hno1 : inventory_data_nodir fs input_dir n1 with
        | error e => simp [hno1] at h1
        | ok s1 =>
          cases hno2 : inventory_data_nodir fs input_dir n2 with
          | error e => simp [hno2] at h2
          | ok s2 =>
            simp only [hno1] at h1
            simp only [hno2] at h2
            have hs1 := seqMap_ok_map (inventoryStep fs (fun _ => input_dir)) [] n1 s1 hno1
            have hs2 := seqMap_ok_map (inventoryStep fs (fun _ => input_dir)) [] n2 s2 hno2
            have hpermS : s1.Perm s2 := by
              rw [hs1, hs2]
              exact hn.map _
            by_cases hzs : s1.length = 0
            · have hzs2 : s2.length = 0 := by rw [← hpermS.length_eq]; exact hzs
              rw [if_pos hzs] at h1
              rw [if_pos hzs2] at h2
              rw [← Except.ok.inj h1, ← Except.ok.inj h2]
            · have hzs2 : ¬ s2.length = 0 := by rw [← hpermS.length_eq]; exact hzs
              rw [if_neg hzs] at h1
              rw [if_neg hzs2] at h2
              rw [← Except.ok.inj h1, ← Except.ok.inj h2]
              exact sortNames_eq_of_perm s1 s2 hpermS
      · have hz2 : ¬ r2.length = 0 := by rw [← hperm.length_eq]; exact hz
        rw [if_neg hz] at h1
        rw [if_neg hz2] at h2
        rw [← Except.ok.inj h1, ← Except.ok.inj h2]
        exact sortNames_eq_of_perm r1 r2 hperm

/-- Witness for C9: two complete datasets discovered in either glob order
give the same sorted inventory. -/
theorem inventory_data_order_independent_witness :
    inventory_data fsTwo (("in").toList)
      [("in/x/x_train.data").toList, ("in/y/y_train.data").toList] []
      = inventory_data fsTwo (("in").toList)
      [("in/y/y_train.data").toList, ("in/x/x_train.data").toList] [] := by
  have h := (inventory_data_order_independent fsTwo (("in").toList)
      [("in/x/x_train.data").toList, ("in/y/y_train.data").toList]
      [("in/y/y_train.data").toList, ("in/x/x_train.data").toList]
      [] [] ([("x").toList, ("y").toList]) ([("x").toList, ("y").toList])
      (by decide) (by decide) (by decide) (by decide)).1
  decide

/-- C2 counterexample: with names `["b","a"]` where only `a` has both
prediction files, `copy_results` aborts on `b` and copies nothing at all —
dataset `a`, although complete, is never processed, so datasets are not
handled independently and no per-dataset flag exists (the return value is
one global 0/1). -/
theorem copy_results_not_independent :
    copy_results tgOne vgOne [("b").toList, ("a").toList] = ([], 0)
    ∧ tgOne (("a").toList) ≠ [] ∧ vgOne (("a").toList) ≠ [] :=
  ⟨by decide, by decide, by decide⟩

/-- C2 (amended): `copy_results` handles the datasets sequentially with one
global flag.  When every dataset has non-empty test and valid globs it
copies all their files and returns 1.  When it reaches a dataset whose test
glob is empty it has copied all files of the earlier datasets, copies
nothing for that dataset or any later one, and returns 0 at once. -/
theorem copy_results_sequential (tg vg : Str → List Str) :
    (∀ names : List Str, (∀ y ∈ names, tg y ≠ [] ∧ vg y ≠ []) →
      copy_results tg vg names = ((names.map (fun y => tg y ++ vg y)).join, 1))
    ∧ (∀ (pre : List Str) (x : Str) (post : List Str),
        (∀ y ∈ pre, tg y ≠ [] ∧ vg y ≠ []) → tg x = [] →
        copy_results tg vg (pre ++ x :: post)
          = ((pre.map (fun y => tg y ++ vg y)).join, 0))
    ∧ (∀ (pre : List Str) (x : Str) (post : List Str),
        (∀ y ∈ pre, tg y ≠ [] ∧ vg y ≠ []) → tg x ≠ [] → vg x = [] →
        copy_results tg vg (pre ++ x :: post)
          = ((pre.map (fun y => tg y ++ vg y)).join ++ tg x, 0)) := by
  refine ⟨?_, ?_, ?_⟩
  · intro names
    induction names with
    | nil => intro _; rfl
    | cons y ys ih =>
      intro h
      obtain ⟨ht, hv⟩ := h y (by simp)
      rw [copy_results]
      rw [if_neg (by simpa using ht), if_neg (by simpa using hv)]
      rw [ih (fun z hz => h z (by simp [hz]))]
      simp
  · intro pre
    induction pre with
    | nil =>
      intro x post _ hx
      rw [List.nil_append, copy_results, if_pos (by simp [hx])]
      simp
    | cons y ys ih =>
      intro x post h hx
      obtain ⟨ht, hv⟩ := h y (by simp)
      rw [List.cons_append, copy_results]
      rw [if_neg (by simpa using ht), if_neg (by simpa using hv)]
      rw [ih x post (fun z hz => h z (by simp [hz])) hx]
      simp
  · intro pre
    induction pre with
    | nil =>
      intro x post _ hxt hxv
      rw [List.nil_append, copy_results]
      rw [if_neg (by simpa using hxt), if_pos (by simp [hxv])]
      simp
    | cons y ys ih =>
      intro x post h hxt hxv
      obtain ⟨ht, hv⟩ := h y (by simp)
      rw [List.cons_append, copy_results]
      rw [if_neg (by simpa using ht), if_neg (by simpa using hv)]
      rw [ih x post (fun z hz => h z (by simp [hz])) hxt hxv]
      simp

/-- Witness for the amended C2 at the spec's example order `["a","b"]`:
both of `a`'s files are copied, then the run aborts on `b` with the single
global flag 0. -/
theorem copy_results_sequential_witness :
    copy_results tgOne vgOne ([("a").toList] ++ ("b").toList :: [])
      = (([("a").toList].map (fun y => tgOne y ++ vgOne y)).join, 0) :=
  (copy_results_sequential tgOne vgOne).2.1 [("a").toList] (("b").toList) []
    (by decide) (by decide)

/-- C4 counterexample: a decoded index 0 does not fail the binary sparse
loader: with F = 4 the 0-based index -1 wraps scipy/Python-style to the last
column and the load succeeds, storing 1.0 at column 3. -/
theorem data_binary_sparse_index0_loads :
    data_binary_sparse [("0").toList] ftFour = .ok ⟨1, 4, [(0, 3, 1)]⟩
    ∧ (CsrMat.mk 1 4 [(0, 3, 1)]).get 0 3 = 1
    ∧ (data_binary_sparse [("0").toList] ftFour).isOk = true :=
  ⟨by decide, by decide, by decide⟩

/-- C4 (amended): the spec-modelled `data_sparse` insertion stage fails on
any 1-based index outside `[1, F]`; the real `data_binary_sparse` fails the
whole load (no partial matrix) when a token's index `k` has `k > F` or
`k < 1 - F`; but an index in `[1 - F, 0]` wraps instead of failing — with at
least one column, the line "0" loads and stores 1.0 at the last column. -/
theorem sparse_loaders_range (F : Nat) (sl : List (List (Int × ℚ)))
    (lines : List Str) (feat : List Str) :
    ((∃ row ∈ sl, ∃ p ∈ row, p.1 < 1 ∨ (F : Int) < p.1) →
      (sparse_list_to_csr_sparse sl F).isOk = false)
    ∧ ((∃ r ∈ file_to_array lines, ∃ t ∈ r, ∃ k, parseInt t = some k ∧
        ((feat.length : Int) < k ∨ k < 1 - (feat.length : Int))) →
      (data_binary_sparse lines feat).isOk = false)
    ∧ (feat ≠ [] →
      data_binary_sparse [("0").toList] feat
        = .ok ⟨1, feat.length, [(0, feat.length - 1, 1)]⟩) := by
  refine ⟨?_, ?_, ?_⟩
  · rintro ⟨row, hrow, p, hp, hout⟩
    rw [isOk_eq_false_iff]
    intro m
    rw [sparse_list_to_csr_sparse]
    have hfail : ∀ i es, seqMap (sparsePairE F i) row ≠ .ok es := by
      intro i
      refine seqMap_err (sparsePairE F i) p ?_ row hp
      intro y hyy
      rw [sparsePairE, if_neg (by omega)] at hyy
      cases hyy
    cases hloop : idxRowsLoop (fun i r => seqMap (sparsePairE F i) r) 0 sl with
    | error e => intro hcontr; cases hcontr
    | ok E => exact absurd hloop (idxRowsLoop_err _ row hfail sl hrow 0 E)
  · rintro ⟨r, hr, t, ht, k, hk, hout⟩
    rw [isOk_eq_false_iff]
    intro m
    rw [data_binary_sparse]
    have hdok : ∀ c, dokIndex feat.length (k - 1) ≠ .ok c := by
      intro c hc
      simp only [dokIndex] at hc
      by_cases hneg : (k - 1 : Int) < 0
      · rw [if_pos hneg, if_neg (by omega)] at hc
        cases hc
      · rw [if_neg hneg, if_neg (by omega)] at hc
        cases hc
    have hfail : ∀ i es, seqMap (binTokE feat.length i) r ≠ .ok es := by
      intro i
      refine seqMap_err (binTokE feat.length i) t ?_ r ht
      intro y hyy
      simp only [binTokE, hk] at hyy
      cases hcd : dokIndex feat.length (k - 1) with
      | error e => rw [hcd] at hyy; cases hyy
      | ok c => exact hdok c hcd
    cases hloop : idxRowsLoop (fun i r2 => seqMap (binTokE feat.length i) r2) 0
        (file_to_array lines) with
    | error e => intro hcontr; cases hcontr
    | ok E => exact absurd hloop (idxRowsLoop_err _ r hfail _ hr 0 E)
  · intro hne
    have hF : 1 ≤ feat.length := List.length_pos.mpr hne
    have hp : parseInt (("0").toList) = some 0 := by decide
    have hd : dokIndex feat.length ((0 : Int) - 1) = .ok (feat.length - 1) := by
      simp only [dokIndex]
      norm_num
      rw [if_pos (by omega)]
      congr 1
      omega
    have hb : binTokE feat.length 0 (("0").toList) = .ok (0, feat.length - 1, 1) := by
      simp only [binTokE, hp, hd]
    have hseq : seqMap (binTokE feat.length 0) [("0").toList]
        = .ok [(0, feat.length - 1, 1)] := by
      simp only [seqMap, hb]
    have hloop : idxRowsLoop (fun row r => seqMap (binTokE feat.length row) r) 0
        [[("0").toList]] = .ok [(0, feat.length - 1, 1)] := by
      simp only [idxRowsLoop, hseq, List.append_nil]
    have hfa : file_to_array [("0").toList] = [[("0").toList]] := by decide
    simp only [data_binary_sparse, hfa, hloop, List.length_singleton]

/-- Witness for the amended C4 at the spec's examples: index 6 with F = 5
fails both loaders; index 0 with F = 4 loads with 1.0 in the last column. -/
theorem sparse_loaders_range_witness :
    (sparse_list_to_csr_sparse [[((6 : Int), (1 : ℚ))]] 5).isOk = false
    ∧ (data_binary_sparse [("6").toList] ftFive).isOk = false
    ∧ data_binary_sparse [("0").toList] ftFour
        = .ok ⟨1, ftFour.length, [(0, ftFour.length - 1, 1)]⟩ :=
  ⟨(sparse_loaders_range 5 [[((6 : Int), (1 : ℚ))]] [] ftFive).1
      ⟨[((6 : Int), (1 : ℚ))], by decide, ((6 : Int), (1 : ℚ)), by decide, by decide⟩,
    (sparse_loaders_range 5 [] [("6").toList] ftFive).2.1
      ⟨[("6").toList], by decide, ("6").toList, by decide, 6, by decide, by decide⟩,
    (sparse_loaders_range 5 [] [] ftFour).2.2 (by decide)⟩

/-- C5: for a well-formed binary-indicator file (every token an integer in
`[1, F]`) the loader returns a matrix with one row per non-empty line and
`F` columns, storing exactly 1.0 at the 0-based column index-1 of every
present index and 0.0 everywhere else. -/
theorem data_binary_sparse_wellformed (lines : List Str) (feat : List Str)
    (hwf : ∀ r ∈ file_to_array lines, ∀ t ∈ r, binTokOk feat.length t = true) :
    ∃ m, data_binary_sparse lines feat = .ok m
      ∧ m.rows = (file_to_array lines).length
      ∧ m.cols = feat.length
      ∧ ∀ i j, m.get i j
          = if rowHasIdx (file_to_array lines) i ((j : Int) + 1) then 1 else 0 := by
  have hbounds : ∀ r ∈ file_to_array lines, ∀ t ∈ r, ∃ k : Int,
      parseInt t = some k ∧ 1 ≤ k ∧ k ≤ (feat.length : Int) := by
    intro r hr t ht
    have h := hwf r hr t ht
    rw [binTokOk] at h
    cases hp : parseInt t with
    | none => rw [hp] at h; cases h
    | some k =>
      rw [hp] at h
      exact ⟨k, rfl, of_decide_eq_true h⟩
  have hrow : ∀ i, ∀ r ∈ file_to_array lines,
      seqMap (binTokE feat.length i) r
        = .ok (r.map (fun t => (i, (((parseInt t).getD 0) - 1).toNat, (1 : ℚ)))) := by
    intro i r hr
    apply seqMap_ok_of_forall
    intro t ht
    obtain ⟨k, hk, hk1, hk2⟩ := hbounds r hr t ht
    have hc2 : (if (k - 1 : Int) < 0 then k - 1 + ((feat.length : Nat) : Int) else k - 1)
        = k - 1 := if_neg (by omega)
    simp only [binTokE, hk, dokIndex, hc2]
    rw [if_pos (by constructor <;> omega)]
    simp [hk]
  obtain ⟨E, hE⟩ := idxRowsLoop_ok_of_forall
    (fun row r => seqMap (binTokE feat.length row) r) (file_to_array lines)
    (fun i r hr => ⟨_, hrow i r hr⟩) 0
  have hmem : ∀ e, e ∈ E ↔ ∃ ridx r, (file_to_array lines).get? ridx = some r
      ∧ e ∈ r.map (fun t => (ridx, (((parseInt t).getD 0) - 1).toNat, (1 : ℚ))) := by
    intro e
    rw [idxRowsLoop_mem _ (file_to_array lines) 0 E hE e]
    constructor
    · rintro ⟨ridx, r, es, hget, hok, hin⟩
      refine ⟨ridx, r, hget, ?_⟩
      rw [Nat.zero_add] at hok
      rw [hrow ridx r (List.get?_mem hget)] at hok
      cases hok
      exact hin
    · rintro ⟨ridx, r, hget, hin⟩
      exact ⟨ridx, r, _, hget,
        by rw [Nat.zero_add]; exact hrow ridx r (List.get?_mem hget), hin⟩
  refine ⟨⟨(file_to_array lines).length, feat.length, E⟩, ?_, rfl, rfl, ?_⟩
  · simp only [data_binary_sparse, hE]
  · intro i j
    by_cases hri : rowHasIdx (file_to_array lines) i ((j : Int) + 1) = true
    · rw [if_pos hri]
      rw [rowHasIdx] at hri
      cases hgi : (file_to_array lines).get? i with
      | none => rw [hgi] at hri; cases hri
      | some row =>
        rw [hgi] at hri
        obtain ⟨t, ht, hpt⟩ := List.any_eq_true.mp hri
        have hpt2 : parseInt t = some ((j : Int) + 1) := by simpa using hpt
        apply get_eq_of
        · refine ⟨(i, j, 1), ?_, rfl, rfl⟩
          rw [hmem]
          refine ⟨i, row, hgi, List.mem_map.mpr ⟨t, ht, ?_⟩⟩
          rw [hpt2]
          simp
        · rintro e he h1 h2
          rw [hmem] at he
          obtain ⟨ridx, r, hget, hin⟩ := he
          obtain ⟨t2, ht2, rfl⟩ := List.mem_map.mp hin
          rfl
    · rw [if_neg hri]
      apply get_eq_zero
      rintro e he ⟨h1, h2⟩
      rw [hmem] at he
      obtain ⟨ridx, r, hget, hin⟩ := he
      obtain ⟨t2, ht2, rfl⟩ := List.mem_map.mp hin
      simp only at h1 h2
      subst h1
      obtain ⟨k, hk, hk1, hk2⟩ := hbounds r (List.get?_mem hget) t2 ht2
      rw [hk] at h2
      simp only [Option.getD_some] at h2
      apply hri
      rw [rowHasIdx, hget]
      apply List.any_eq_true.mpr
      refine ⟨t2, ht2, ?_⟩
      rw [hk]
      simp only [beq_iff_eq, Option.some.injEq]
      omega

/-- Witness for C5 at the spec's example: `F = 4`, line "1 3" — 1.0 at
columns 0 and 2, 0.0 at columns 1 and 3. -/
theorem data_binary_sparse_wellformed_witness :
    ∃ m, data_binary_sparse [("1 3").toList] ftFour = .ok m
      ∧ m.rows = 1 ∧ m.cols = 4
      ∧ m.get 0 0 = 1 ∧ m.get 0 1 = 0 ∧ m.get 0 2 = 1 ∧ m.get 0 3 = 0 := by
  obtain ⟨m, hm, hr, hc, hget⟩ :=
    data_binary_sparse_wellformed [("1 3").toList] ftFour (by decide)
  refine ⟨m, hm, by rw [hr]; decide, by rw [hc]; decide, ?_, ?_, ?_, ?_⟩
  · rw [hget 0 0]; decide
  · rw [hget 0 1]; decide
  · rw [hget 0 2]; decide
  · rw [hget 0 3]; decide

/-- C6: for a well-formed `index:value` file (every token a pair whose
1-based index lies in `[1, F]`; a repeated index in a row carries one value)
the loader returns a matrix with one row per non-empty line and `F` columns
in which each pair's value sits at 0-based column index-1 and every other
cell is 0. -/
theorem data_sparse_wellformed (lines : List Str) (feat : List Str)
    (hwf : ∀ r ∈ file_to_array lines, ∀ t ∈ r, pairTokOk feat.length t = true)
    (hval : ∀ r ∈ file_to_array lines, ∀ t1 ∈ r, ∀ t2 ∈ r,
      (parsePair t1).map Prod.fst = (parsePair t2).map Prod.fst →
      parsePair t1 = parsePair t2) :
    ∃ m, data_sparse lines feat = .ok m
      ∧ m.rows = (file_to_array lines).length
      ∧ m.cols = feat.length
      ∧ (∀ i row, (file_to_array lines).get? i = some row →
          ∀ t ∈ row, ∀ k v, parsePair t = some (k, v) → m.get i ((k - 1).toNat) = v)
      ∧ (∀ (i j : Nat), rowHasPair (file_to_array lines) i ((j : Int) + 1) = false →
          m.get i j = 0) := by
  have hbounds : ∀ r ∈ file_to_array lines, ∀ t ∈ r, ∃ k v,
      parsePair t = some (k, v) ∧ 1 ≤ k ∧ k ≤ (feat.length : Int) := by
    intro r hr t ht
    have h := hwf r hr t ht
    rw [pairTokOk] at h
    cases hp : parsePair t with
    | none => rw [hp] at h; cases h
    | some p =>
      rw [hp] at h
      exact ⟨p.1, p.2, by simp, of_decide_eq_true h⟩
  have hsl : sparse_file_to_sparse_list lines
      = .ok ((file_to_array lines).map (fun r => r.map (fun t => (parsePair t).getD (0, 0)))) := by
    rw [sparse_file_to_sparse_list]
    apply seqMap_ok_of_forall
    intro r hr
    apply seqMap_ok_of_forall
    intro t ht
    obtain ⟨k, v, hp, _, _⟩ := hbounds r hr t ht
    simp [parsePairE, hp]
  have hrow2 : ∀ i, ∀ prow ∈ (file_to_array lines).map
        (fun r => r.map (fun t => (parsePair t).getD (0, 0))),
      seqMap (sparsePairE feat.length i) prow
        = .ok (prow.map (fun p => (i, (p.1 - 1).toNat, p.2))) := by
    intro i prow hprow
    obtain ⟨r, hr, rfl⟩ := List.mem_map.mp hprow
    apply seqMap_ok_of_forall
    intro p hp
    obtain ⟨t, ht, rfl⟩ := List.mem_map.mp hp
    obtain ⟨k, v, hkv, hk1, hk2⟩ := hbounds r hr t ht
    rw [hkv]
    simp only [Option.getD_some]
    rw [sparsePairE, if_pos (by constructor <;> omega)]
  obtain ⟨E, hE⟩ := idxRowsLoop_ok_of_forall
    (fun row r => seqMap (sparsePairE feat.length row) r)
    ((file_to_array lines).map (fun r => r.map (fun t => (parsePair t).getD (0, 0))))
    (fun i r hr => ⟨_, hrow2 i r hr⟩) 0
  have hmem : ∀ e, e ∈ E ↔ ∃ ridx r, (file_to_array lines).get? ridx = some r
      ∧ e ∈ (r.map (fun t => (parsePair t).getD (0, 0))).map
          (fun p => (ridx, (p.1 - 1).toNat, p.2)) := by
    intro e
    rw [idxRowsLoop_mem _ _ 0 E hE e]
    constructor
    · rintro ⟨ridx, prow, es, hget, hok, hin⟩
      rw [List.get?_map] at hget
      cases hgr : (file_to_array lines).get? ridx with
      | none => rw [hgr] at hget; cases hget
      | some r =>
        rw [hgr] at hget
        have hget2 : (r.map (fun t => (parsePair t).getD (0, 0))) = prow := by
          simpa using hget
        subst hget2
        refine ⟨ridx, r, hgr, ?_⟩
        rw [Nat.zero_add] at hok
        rw [hrow2 ridx _ (List.mem_map.mpr ⟨r, List.get?_mem hgr, rfl⟩)] at hok
        cases hok
        exact hin
    · rintro ⟨ridx, r, hget, hin⟩
      refine ⟨ridx, r.map (fun t => (parsePair t).getD (0, 0)), _, ?_, ?_, hin⟩
      · rw [List.get?_map, hget]
        rfl
      · rw [Nat.zero_add]
        exact hrow2 ridx _ (List.mem_map.mpr ⟨r, List.get?_mem hget, rfl⟩)
  refine ⟨⟨((file_to_array lines).map
      (fun r => r.map (fun t => (parsePair t).getD (0, 0)))).length, feat.length, E⟩,
    ?_, by simp, rfl, ?_, ?_⟩
  · simp only [data_sparse, hsl, sparse_list_to_csr_sparse, hE]
  · intro i row hgi t ht k v hkv
    apply get_eq_of
    · refine ⟨(i, ((k - 1).toNat : Nat), v), ?_, rfl, rfl⟩
      rw [hmem]
      refine ⟨i, row, hgi, ?_⟩
      refine List.mem_map.mpr ⟨(k, v), List.mem_map.mpr ⟨t, ht, by rw [hkv]; rfl⟩, rfl⟩
    · rintro e he h1 h2
      rw [hmem] at he
      obtain ⟨ridx, r2, hget, hin⟩ := he
      obtain ⟨p, hp, rfl⟩ := List.mem_map.mp hin
      obtain ⟨t2, ht2, rfl⟩ := List.mem_map.mp hp
      simp only at h1 h2
      subst h1
      have hr2 : r2 = row := by
        rw [hgi] at hget
        exact (Option.some.inj hget).symm
      subst hr2
      obtain ⟨k2, v2, hkv2, hk21, hk22⟩ := hbounds r2 (List.get?_mem hgi) t2 ht2
      rw [hkv2] at h2 ⊢
      simp only [Option.getD_some] at h2 ⊢
      have hkb : 1 ≤ k ∧ k ≤ (feat.length : Int) := by
        obtain ⟨ka, va, hkva, h1a, h2a⟩ := hbounds r2 (List.get?_mem hgi) t ht
        rw [hkva] at hkv
        cases hkv
        exact ⟨h1a, h2a⟩
      have hkk : k2 = k := by omega
      subst hkk
      have heq := hval r2 (List.get?_mem hgi) t2 ht2 t ht (by simp [hkv2, hkv])
      rw [hkv2, hkv] at heq
      cases heq
      rfl
  · intro i j hfalse
    apply get_eq_zero
    rintro e he ⟨h1, h2⟩
    rw [hmem] at he
    obtain ⟨ridx, r2, hget, hin⟩ := he
    obtain ⟨p, hp, rfl⟩ := List.mem_map.mp hin
    obtain ⟨t2, ht2, rfl⟩ := List.mem_map.mp hp
    simp only at h1 h2
    subst h1
    obtain ⟨k2, v2, hkv2, hk21, hk22⟩ := hbounds r2 (List.get?_mem hget) t2 ht2
    rw [hkv2] at h2
    simp only [Option.getD_some] at h2
    simp only [rowHasPair, hget] at hfalse
    have : (fun t => ((parsePair t).map Prod.fst) == some ((j : Int) + 1)) t2 = true := by
      simp only [hkv2]
      simp
      omega
    rw [List.any_eq_true.mpr ⟨t2, ht2, this⟩] at hfalse
    cases hfalse

/-- Witness for C6 at the spec's example: `F = 5`, line "2:3.0 5:1.5" —
3.0 at column 1, 1.5 at column 4, 0.0 elsewhere. -/
theorem data_sparse_wellformed_witness :
    ∃ m, data_sparse [("2:3.0 5:1.5").toList] ftFive = .ok m
      ∧ m.rows = 1 ∧ m.cols = 5
      ∧ m.get 0 1 = mkRat 3 1 ∧ m.get 0 4 = mkRat 3 2
      ∧ m.get 0 0 = 0 ∧ m.get 0 2 = 0 ∧ m.get 0 3 = 0 := by
  obtain ⟨m, hm, hr, hc, hv, hz⟩ :=
    data_sparse_wellformed [("2:3.0 5:1.5").toList] ftFive (by decide) (by decide)
  refine ⟨m, hm, by rw [hr]; decide, by rw [hc]; decide, ?_, ?_, ?_, ?_, ?_⟩
  · simpa using hv 0 [("2:3.0").toList, ("5:1.5").toList] (by decide)
      (("2:3.0").toList) (by decide) 2 (mkRat 3 1) (by decide)
  · simpa using hv 0 [("2:3.0").toList, ("5:1.5").toList] (by decide)
      (("5:1.5").toList) (by decide) 5 (mkRat 3 2) (by decide)
  · exact hz 0 0 (by decide)
  · exact hz 0 2 (by decide)
  · exact hz 0 3 (by decide)

/-- C7: for a file of `R` lines with exactly `C` numeric tokens each, the
dense loader returns the `R × C` matrix of the parsed tokens; on a ragged
tokenization (two rows of different lengths) the whole load fails and no
matrix is returned. -/
theorem data_dense_spec (lines : List Str) (C : Nat) (hC : 0 < C)
    (hlen : ∀ l ∈ lines, (tokenize l).length = C)
    (hnum : ∀ l ∈ lines, ∀ t ∈ tokenize l, (parseFloatQ t).isSome = true) :
    (data lines
        = .ok (lines.map (fun l => (tokenize l).map (fun t => (parseFloatQ t).getD 0)))
      ∧ (lines.map (fun l => (tokenize l).map (fun t => (parseFloatQ t).getD 0))).length
          = lines.length
      ∧ ∀ row ∈ lines.map (fun l => (tokenize l).map (fun t => (parseFloatQ t).getD 0)),
          row.length = C)
    ∧ ∀ lines2 : List Str,
      (∃ r1 ∈ file_to_array lines2, ∃ r2 ∈ file_to_array lines2,
        r1.length ≠ r2.length) →
      ∀ m2, data lines2 ≠ .ok m2 := by
  constructor
  · have harr : file_to_array lines = lines.map tokenize := by
      rw [file_to_array]
      apply List.filter_eq_self.mpr
      intro r hr
      obtain ⟨l, hl, rfl⟩ := List.mem_map.mp hr
      have hlc := hlen l hl
      cases htok : tokenize l with
      | nil => rw [htok] at hlc; simp at hlc; omega
      | cons a as => simp
    have hparse : seqMap (seqMap parseFloatE) (lines.map tokenize)
        = .ok ((lines.map tokenize).map
            (fun r => r.map (fun t => (parseFloatQ t).getD 0))) := by
      apply seqMap_ok_of_forall
      intro r hr
      apply seqMap_ok_of_forall
      intro t ht
      obtain ⟨l, hl, rfl⟩ := List.mem_map.mp hr
      have hq := hnum l hl t ht
      cases hqq : parseFloatQ t with
      | none => rw [hqq] at hq; cases hq
      | some q => simp [parseFloatE, hqq]
    have hfuse : (lines.map tokenize).map (fun r => r.map (fun t => (parseFloatQ t).getD 0))
        = lines.map (fun l => (tokenize l).map (fun t => (parseFloatQ t).getD 0)) := by
      rw [List.map_map]
      rfl
    have hrect : rectangular ((lines.map tokenize).map
        (fun r => r.map (fun t => (parseFloatQ t).getD 0))) = true := by
      apply rectangular_of_const _ C
      intro r hr
      obtain ⟨r2, hr2, rfl⟩ := List.mem_map.mp hr
      obtain ⟨l, hl, rfl⟩ := List.mem_map.mp hr2
      simp [hlen l hl]
    refine ⟨?_, by simp, ?_⟩
    · have hrect2 : rectangular (lines.map
          (fun l => (tokenize l).map (fun t => (parseFloatQ t).getD 0))) = true := by
        rw [← hfuse]; exact hrect
      rw [data, harr, hparse, hfuse]
      simp [hrect2]
    · intro row hrow
      obtain ⟨l, hl, rfl⟩ := List.mem_map.mp hrow
      simp [hlen l hl]
  · rintro lines2 ⟨r1, hr1, r2, hr2, hl12⟩ m2 hcontr
    rw [data] at hcontr
    cases hsm : seqMap (seqMap parseFloatE) (file_to_array lines2) with
    | error e => rw [hsm] at hcontr; cases hcontr
    | ok M =>
      rw [hsm] at hcontr
      have hM : M = (file_to_array lines2).map
          (fun r => exOk [] (seqMap parseFloatE r)) :=
        seqMap_ok_map _ [] _ M hsm
      have hlenrow : ∀ r ∈ file_to_array lines2,
          (exOk [] (seqMap parseFloatE r)).length = r.length := by
        intro r hr
        obtain ⟨ys, hys⟩ := seqMap_ok_forall _ _ M hsm r hr
        rw [hys]
        have hys2 := seqMap_ok_map parseFloatE 0 r ys hys
        simp only [exOk]
        rw [hys2]
        simp
      have hrectF : rectangular M = false := by
        by_cases hb : rectangular M = true
        · exfalso
          have hall := rectangular_all M hb
          have h1 : exOk [] (seqMap parseFloatE r1) ∈ M := by
            rw [hM]; exact List.mem_map.mpr ⟨r1, hr1, rfl⟩
          have h2 : exOk [] (seqMap parseFloatE r2) ∈ M := by
            rw [hM]; exact List.mem_map.mpr ⟨r2, hr2, rfl⟩
          have := hall _ h1 _ h2
          rw [hlenrow r1 hr1, hlenrow r2 hr2] at this
          exact hl12 this
        · simpa using hb
      simp [hrectF] at hcontr

/-- Witness for C7: a 2 × 2 file loads to the parsed matrix, and a ragged
two-line file fails. -/
theorem data_dense_spec_witness :
    data [("1 2").toList, ("3 4.5").toList]
      = .ok [[mkRat 1 1, mkRat 2 1], [mkRat 3 1, mkRat 9 2]]
    ∧ ∀ m2, data [("1 2").toList, ("3").toList] ≠ .ok m2 := by
  have h := data_dense_spec [("1 2").toList, ("3 4.5").toList] 2
    (by decide) (by decide) (by decide)
  constructor
  · rw [h.1.1]
    decide
  · intro m2
    exact h.2 [("1 2").toList, ("3").toList]
      ⟨[("1").toList, ("2").toList], by decide, [("3").toList], by decide, by decide⟩ m2

/-- C10: when the flat-layout glob matches a path with no path separator
(here `input_dir` is the empty string, so the glob pattern is a bare
`*_train.data`), the reverse search for the separator raises an uncaught
`ValueError` and `inventory_data` neither returns a name list nor the
empty-inventory warning. -/
theorem inventory_data_nosep_raises :
    inventory_data ⟨fun _ => false⟩ [] [] [("x_train.data").toList]
      = .error .valueError := by
  decide

end DataIO
